import Mathlib

/-!
Shallow embedding of the playback-synchronization engine of the
voice-message-summary repository.

The main player component keeps its UI state in a set of React state
hooks (`isPlaying`, `currentTime`, `duration`, `playbackRate`, `volume`,
`isMuted`, `isLoading`, `error`, `isDragging`) plus a mutable ref
`previousVolumeRef`.  We model that state as one record and each event
handler as a pure state-transition function.  The media element's own
clock is delivered to the handlers through event arguments (the value of
`audio.currentTime` at the moment the handler runs); outside of a drag the
component keeps its `currentTime` state synchronized with that clock, so
the transition functions read the clock from the state's `currentTime`
where the source reads `audio.currentTime`.
-/

namespace AudioSync

/-- A topic marker: `interface Topic { name: string; timestamp: number }`. -/
structure Topic where
  name : String
  timestamp : ℚ
  deriving DecidableEq, Repr

/-- A word timestamp: `interface WordTimestamp { word; start; end }`. -/
structure WordTimestamp where
  word : String
  start : ℚ
  stop : ℚ
  deriving DecidableEq, Repr

/-- The player component's state hooks together with `previousVolumeRef`. -/
structure PlayerState where
  isPlaying : Bool
  currentTime : ℚ
  duration : ℚ
  playbackRate : ℚ
  volume : ℚ
  isMuted : Bool
  isLoading : Bool
  error : Option String
  isDragging : Bool
  previousVolume : ℚ
  deriving DecidableEq, Repr

/-- The component's initial state: `useState(false)`, `useState(0)`, …,
`useState(1)` for volume, `useState(true)` for loading, and
`previousVolumeRef = useRef(1)`. -/
def initialState : PlayerState where
  isPlaying := false
  currentTime := 0
  duration := 0
  playbackRate := 1
  volume := 1
  isMuted := false
  isLoading := true
  error := none
  isDragging := false
  previousVolume := 1

/-- Transport commands issued to the media element. -/
inductive AudioCommand where
  | play
  | pause
  deriving DecidableEq, Repr

/-- Outcome of the promise returned by `audio.play()`: it either resolves,
or rejects with an error carrying a `name` and a `message`. -/
inductive PlayResult where
  | resolved
  | rejected (errName : String) (errMessage : String)
  deriving DecidableEq, Repr

/-- Source `skip(seconds)`:
`newTime = Math.max(0, Math.min(duration, audio.currentTime + seconds))`,
then `audio.currentTime = newTime; setCurrentTime(newTime)`. -/
def skip (s : PlayerState) (seconds : ℚ) : PlayerState :=
  let newTime := max 0 (min s.duration (s.currentTime + seconds))
  { s with currentTime := newTime }

/-- Synchronous part of `togglePlayPause()` in the full-featured player:
if playing, call `audio.pause()` and `setIsPlaying(false)`; otherwise call
`audio.play()` and leave the state untouched until the promise settles. -/
def togglePlayPause (s : PlayerState) : PlayerState × AudioCommand :=
  if s.isPlaying then ({ s with isPlaying := false }, AudioCommand.pause)
  else (s, AudioCommand.play)

/-- Continuation run when the `audio.play()` promise of `togglePlayPause`
settles: `.then` does `setIsPlaying(true); setError(null)`; `.catch` sets
the error unless `err.name` is AbortError or NotAllowedError, and always
does `setIsPlaying(false)`. -/
def onPlaySettled (s : PlayerState) (r : PlayResult) : PlayerState :=
  match r with
  | PlayResult.resolved => { s with isPlaying := true, error := none }
  | PlayResult.rejected errName errMessage =>
      let s1 :=
        if errName ≠ ("AbortError") ∧ errName ≠ ("NotAllowedError") then
          { s with error := some (("Playback failed. ") ++ errMessage) }
        else s
      { s1 with isPlaying := false }

/-- The `togglePlayPause()` of the duplicate legacy player component
(`src/components/AudioPlayer.tsx`): it calls `pause()` or `play()` and then
unconditionally runs `setIsPlaying(!isPlaying)` synchronously, with no
promise handling. -/
def togglePlayPauseLegacy (s : PlayerState) : PlayerState × AudioCommand :=
  if s.isPlaying then ({ s with isPlaying := !s.isPlaying }, AudioCommand.pause)
  else ({ s with isPlaying := !s.isPlaying }, AudioCommand.play)

/-- Source `toggleMute()`: if muted, restore `previousVolumeRef.current` and
unmute; otherwise record the current volume into `previousVolumeRef`,
set the volume to 0 and mute. -/
def toggleMute (s : PlayerState) : PlayerState :=
  if s.isMuted then
    { s with volume := s.previousVolume, isMuted := false }
  else
    { s with previousVolume := s.volume, volume := 0, isMuted := true }

/-- Source `handleVolumeChange(newVolume)`: store `newVolume[0]` as the volume;
if it is 0, set `isMuted = true`; otherwise set `isMuted = false` and
record it into `previousVolumeRef`.  (The source applies no clamping.) -/
def handleVolumeChange (s : PlayerState) (level : ℚ) : PlayerState :=
  if level = 0 then
    { s with volume := level, isMuted := true }
  else
    { s with volume := level, isMuted := false, previousVolume := level }

/-- Source `adjustVolume(delta)`: clamp `volume + delta` to `[0,1]` and feed it to
`handleVolumeChange`. -/
def adjustVolume (s : PlayerState) (delta : ℚ) : PlayerState :=
  handleVolumeChange s (max 0 (min 1 (s.volume + delta)))

/-- The `timeupdate` handler: when not dragging, `setCurrentTime
(audio.currentTime)` (and forward the time through the throttled callback);
when dragging, do nothing. -/
def handleTimeUpdate (s : PlayerState) (audioTime : ℚ) : PlayerState :=
  if s.isDragging then s else { s with currentTime := audioTime }

/-- The drag-end handlers (`handleMouseUp` / `handleTouchEnd`):
`setIsDragging(false)`. -/
def handleMouseUp (s : PlayerState) : PlayerState :=
  { s with isDragging := false }

/-- Source `const PLAYBACK_RATES = [1, 1.25, 1.5, 1.75, 2, 2.5, 3]`. -/
def PLAYBACK_RATES : List ℚ := [1, 1.25, 1.5, 1.75, 2, 2.5, 3]

/-- Source `PLAYBACK_RATES.indexOf(playbackRate)`: JS `indexOf` yields `-1` when
the value is absent. -/
def currentRateIndex (r : ℚ) : ℤ :=
  match PLAYBACK_RATES.indexOf? r with
  | some i => (i : ℤ)
  | none => -1

/-- The index `(currentIndex + 1) % PLAYBACK_RATES.length` used to select
the next rate. -/
def nextRateIndex (r : ℚ) : ℕ :=
  ((currentRateIndex r + 1) % (PLAYBACK_RATES.length : ℤ)).toNat

/-- Source `PLAYBACK_RATES[(currentIndex + 1) % PLAYBACK_RATES.length]`. -/
def nextRate (r : ℚ) : ℚ :=
  PLAYBACK_RATES.getD (nextRateIndex r) 0

/-- Source `handlePlaybackRateChange()`: set the playback rate (of the media
element and of the state) to the next rate in the cycle. -/
def handlePlaybackRateChange (s : PlayerState) : PlayerState :=
  { s with playbackRate := nextRate s.playbackRate }

/-- The predicate tested by `findIndex` in `activeTopicIndex` and
`getCurrentWordIndex`, expressed over the list of timestamps:
`t >= ts[idx] && (ts[idx+1] === undefined || t < ts[idx+1])`. -/
def entryActiveAt (ts : List ℚ) (t : ℚ) (idx : ℕ) : Bool :=
  match ts.get? idx, ts.get? (idx + 1) with
  | some a, none => decide (a ≤ t)
  | some a, some b => decide (a ≤ t) && decide (t < b)
  | none, _ => false

/-- The `findIndex` over the timestamp list: the first index satisfying
`entryActiveAt`, if any. -/
def activeIndexSearch (ts : List ℚ) (t : ℚ) : Option ℕ :=
  (List.range ts.length).find? (entryActiveAt ts t)

/-- Source `activeTopicIndex` (the `useMemo` in the full-featured player):
`topics.findIndex((topic, idx) => currentTime >= topic.timestamp &&
(!nextTopic || currentTime < nextTopic.timestamp))`, returning `null`
(here `none`) when `findIndex` yields `-1`. -/
def activeTopicIndex (topics : List Topic) (currentTime : ℚ) : Option ℕ :=
  activeIndexSearch (topics.map Topic.timestamp) currentTime

/-- Source `getCurrentWordIndex()` in the results view: `-1` when `words` is
empty, otherwise `words.findIndex((word, index) => currentAudioTime >=
word.start && (!nextWord || currentAudioTime < nextWord.start))`, which is
`-1` when no index satisfies the predicate. -/
def getCurrentWordIndex (words : List WordTimestamp) (currentAudioTime : ℚ) : ℤ :=
  if words.length = 0 then -1
  else
    match activeIndexSearch (words.map WordTimestamp.start) currentAudioTime with
    | some i => (i : ℤ)
    | none => -1

/-- The specification's notion of the active entry at time `t`: the entry
at `i` has timestamp `≤ t`, and either there is no next entry or `t` is
strictly below the next entry's timestamp. -/
def IsActiveAt (ts : List ℚ) (t : ℚ) (i : ℕ) : Prop :=
  ∃ a, ts.get? i = some a ∧ a ≤ t ∧
    (ts.get? (i + 1) = none ∨ ∃ b, ts.get? (i + 1) = some b ∧ t < b)

theorem entryActiveAt_iff (ts : List ℚ) (t : ℚ) (i : ℕ) :
    entryActiveAt ts t i = true ↔ IsActiveAt ts t i := by
  unfold entryActiveAt IsActiveAt
  rcases h1 : ts.get? i with _ | a <;> rcases h2 : ts.get? (i + 1) with _ | b <;>
    simp [h1, h2]

theorem isActiveAt_unique_lt (ts : List ℚ) (t : ℚ)
    (hs : ts.Pairwise (· ≤ ·)) {i j : ℕ} (hij : i < j)
    (hi : IsActiveAt ts t i) (hj : IsActiveAt ts t j) : False := by
  obtain ⟨a, ha, hat, hnext⟩ := hi
  obtain ⟨c, hc, hct, -⟩ := hj
  obtain ⟨hjlen, hcget⟩ := List.get?_eq_some.mp hc
  rcases hnext with hnone | ⟨b, hb, htb⟩
  · have := List.get?_eq_none.mp hnone
    omega
  · obtain ⟨hblen, hbget⟩ := List.get?_eq_some.mp hb
    have hbc : b ≤ c := by
      rcases Nat.lt_or_ge (i + 1) j with hlt | hge
      · have := List.pairwise_iff_get.mp hs ⟨i + 1, hblen⟩ ⟨j, hjlen⟩ hlt
        rw [hbget, hcget] at this
        exact this
      · have hij1 : i + 1 = j := by omega
        subst hij1
        rw [hbget] at hcget
        exact le_of_eq hcget
    exact absurd (lt_of_lt_of_le htb (le_trans hbc hct)) (lt_irrefl t)

theorem isActiveAt_unique (ts : List ℚ) (t : ℚ)
    (hs : ts.Pairwise (· ≤ ·)) {i j : ℕ}
    (hi : IsActiveAt ts t i) (hj : IsActiveAt ts t j) : i = j := by
  rcases lt_trichotomy i j with h | h | h
  · exact absurd (isActiveAt_unique_lt ts t hs h hi hj) (by simp)
  · exact h
  · exact absurd (isActiveAt_unique_lt ts t hs h hj hi) (by simp)

theorem isActiveAt_cons_succ (x : ℚ) (ts : List ℚ) (t : ℚ) (i : ℕ)
    (h : IsActiveAt ts t i) : IsActiveAt (x :: ts) t (i + 1) := by
  obtain ⟨a, ha, hat, hnext⟩ := h
  exact ⟨a, by simpa using ha, hat, by simpa using hnext⟩

theorem exists_isActiveAt (ts : List ℚ) (t : ℚ)
    (hs : ts.Pairwise (· ≤ ·)) (a : ℚ) (h0 : ts.get? 0 = some a)
    (hat : a ≤ t) : ∃ i, IsActiveAt ts t i := by
  induction ts generalizing a with
  | nil => simp at h0
  | cons x rest ih =>
    have hax : a = x := by simpa using h0.symm
    subst hax
    cases rest with
    | nil => exact ⟨0, a, rfl, hat, Or.inl rfl⟩
    | cons y rest2 =>
      by_cases hty : t < y
      · exact ⟨0, a, rfl, hat, Or.inr ⟨y, rfl, hty⟩⟩
      · push_neg at hty
        obtain ⟨i, hi⟩ := ih hs.of_cons y rfl hty
        exact ⟨i + 1, isActiveAt_cons_succ a (y :: rest2) t i hi⟩

theorem isActiveAt_lt_length (ts : List ℚ) (t : ℚ) (i : ℕ)
    (h : IsActiveAt ts t i) : i < ts.length := by
  obtain ⟨a, ha, -, -⟩ := h
  exact (List.get?_eq_some.mp ha).1

/-- Full characterization of `activeIndexSearch` on a sorted timestamp
list: it yields `some i` exactly for the (unique) active index, and `none`
exactly when the list is empty or `t` is before the first timestamp. -/
theorem activeIndexSearch_spec (ts : List ℚ) (t : ℚ)
    (hs : ts.Pairwise (· ≤ ·)) :
    (∀ i, activeIndexSearch ts t = some i ↔ IsActiveAt ts t i) ∧
    (activeIndexSearch ts t = none ↔
      ts = [] ∨ ∃ a, ts.get? 0 = some a ∧ t < a) := by
  constructor
  · intro i
    constructor
    · intro h
      exact (entryActiveAt_iff ts t i).mp (List.find?_some h)
    · intro h
      have hmem : ∃ x ∈ List.range ts.length, entryActiveAt ts t x = true :=
        ⟨i, List.mem_range.mpr (isActiveAt_lt_length ts t i h),
          (entryActiveAt_iff ts t i).mpr h⟩
      have hsome : (activeIndexSearch ts t).isSome = true :=
        List.find?_isSome.mpr hmem
      obtain ⟨j, hj⟩ := Option.isSome_iff_exists.mp hsome
      have hij : IsActiveAt ts t j :=
        (entryActiveAt_iff ts t j).mp (List.find?_some hj)
      rw [hj, isActiveAt_unique ts t hs hij h]
  · constructor
    · intro h
      have hall := List.find?_eq_none.mp h
      rcases hts : ts with _ | ⟨x, rest⟩
      · exact Or.inl rfl
      · refine Or.inr ⟨x, rfl, ?_⟩
        by_contra hlt
        push_neg at hlt
        obtain ⟨i, hi⟩ := exists_isActiveAt ts t hs x (by rw [hts]; rfl) hlt
        rw [hts] at hi
        exact hall i
          (List.mem_range.mpr (by rw [hts]; exact isActiveAt_lt_length _ t i hi))
          (by rw [hts]; exact (entryActiveAt_iff _ t i).mpr hi)
    · intro h
      apply List.find?_eq_none.mpr
      intro x hx
      rw [List.mem_range] at hx
      intro hact
      have hia := (entryActiveAt_iff ts t x).mp hact
      obtain ⟨a, ha, hat, -⟩ := hia
      rcases h with rfl | ⟨f, hf, htf⟩
      · simp at hx
      · have hfa : f ≤ a := by
          obtain ⟨hlen0, hget0⟩ := List.get?_eq_some.mp hf
          obtain ⟨hlenx, hgetx⟩ := List.get?_eq_some.mp ha
          rcases Nat.eq_zero_or_pos x with rfl | hxpos
          · rw [hget0] at hgetx
            exact le_of_eq hgetx
          · have := List.pairwise_iff_get.mp hs ⟨0, hlen0⟩ ⟨x, hlenx⟩ hxpos
            rw [hget0, hgetx] at this
            exact this
        exact absurd (lt_of_lt_of_le htf (le_trans hfa hat)) (lt_irrefl t)

theorem getCurrentWordIndex_search_none (words : List WordTimestamp) (t : ℚ)
    (h : activeIndexSearch (words.map WordTimestamp.start) t = none) :
    getCurrentWordIndex words t = -1 := by
  unfold getCurrentWordIndex
  by_cases hlen : words.length = 0
  · simp [hlen]
  · simp [hlen, h]

theorem getCurrentWordIndex_search_some (words : List WordTimestamp) (t : ℚ)
    (j : ℕ)
    (h : activeIndexSearch (words.map WordTimestamp.start) t = some j) :
    getCurrentWordIndex words t = (j : ℤ) := by
  unfold getCurrentWordIndex
  by_cases hlen : words.length = 0
  · exfalso
    have hwnil : words = [] := List.length_eq_zero.mp hlen
    subst hwnil
    simp [activeIndexSearch] at h
  · simp [hlen, h]

/-- C1: on sequences sorted ascending by timestamp/start, the active-index
computation (shared by topic highlighting and word highlighting) returns
exactly the unique index whose timestamp is `≤ t` with either no next
entry or `t` strictly below the next entry's timestamp, and returns
none / `-1` exactly when the sequence is empty or `t` is before the first
entry. -/
theorem activeIndex_correct (topics : List Topic) (words : List WordTimestamp)
    (t : ℚ)
    (hT : topics.Pairwise (fun a b => a.timestamp ≤ b.timestamp))
    (hW : words.Pairwise (fun a b => a.start ≤ b.start)) :
    (∀ i, activeTopicIndex topics t = some i ↔
      IsActiveAt (topics.map Topic.timestamp) t i) ∧
    (activeTopicIndex topics t = none ↔
      (topics = [] ∨ ∃ a, (topics.map Topic.timestamp).get? 0 = some a ∧ t < a)) ∧
    (∀ i j, IsActiveAt (topics.map Topic.timestamp) t i →
      IsActiveAt (topics.map Topic.timestamp) t j → i = j) ∧
    (∀ i : ℕ, getCurrentWordIndex words t = (i : ℤ) ↔
      IsActiveAt (words.map WordTimestamp.start) t i) ∧
    (getCurrentWordIndex words t = -1 ↔
      (words = [] ∨ ∃ a, (words.map WordTimestamp.start).get? 0 = some a ∧ t < a)) := by
  have hsT : (topics.map Topic.timestamp).Pairwise (· ≤ ·) :=
    List.pairwise_map.mpr hT
  have hsW : (words.map WordTimestamp.start).Pairwise (· ≤ ·) :=
    List.pairwise_map.mpr hW
  obtain ⟨hTsome, hTnone⟩ := activeIndexSearch_spec (topics.map Topic.timestamp) t hsT
  obtain ⟨hWsome, hWnone⟩ := activeIndexSearch_spec (words.map WordTimestamp.start) t hsW
  refine ⟨fun i => hTsome i, ?_, ?_, ?_, ?_⟩
  · rw [show activeTopicIndex topics t
        = activeIndexSearch (topics.map Topic.timestamp) t from rfl, hTnone]
    constructor
    · rintro (hnil | h)
      · exact Or.inl (List.map_eq_nil_iff.mp hnil)
      · exact Or.inr h
    · rintro (rfl | h)
      · exact Or.inl rfl
      · exact Or.inr h
  · intro i j hi hj
    exact isActiveAt_unique (topics.map Topic.timestamp) t hsT hi hj
  · intro i
    rcases hsearch : activeIndexSearch (words.map WordTimestamp.start) t with _ | j
    · rw [getCurrentWordIndex_search_none words t hsearch]
      constructor
      · intro h
        exact absurd h (by omega)
      · intro h
        have := (hWsome i).mpr h
        rw [hsearch] at this
        exact absurd this (by simp)
    · rw [getCurrentWordIndex_search_some words t j hsearch]
      constructor
      · intro h
        obtain rfl : j = i := by exact_mod_cast h
        exact (hWsome j).mp hsearch
      · intro h
        have := (hWsome i).mpr h
        rw [hsearch] at this
        simp only [Option.some_inj] at this
        simp [this]
  · rcases hsearch : activeIndexSearch (words.map WordTimestamp.start) t with _ | j
    · rw [getCurrentWordIndex_search_none words t hsearch]
      constructor
      · intro _hx
        rcases hWnone.mp hsearch with hnil | h
        · exact Or.inl (List.map_eq_nil_iff.mp hnil)
        · exact Or.inr h
      · intro _hx
        rfl
    · rw [getCurrentWordIndex_search_some words t j hsearch]
      constructor
      · intro h
        exact absurd h (by omega)
      · rintro (rfl | h)
        · simp [activeIndexSearch] at hsearch
        · have := hWnone.mpr (Or.inr h)
          rw [hsearch] at this
          exact absurd this (by simp)

/-- Topics of the spec's scenario: Intro at 0, Budget at 32, Closing at 95. -/
def demoTopics : List Topic :=
  [⟨("Intro"), 0⟩, ⟨("Budget"), 32⟩, ⟨("Closing"), 95⟩]

/-- A small sorted word sequence. -/
def demoWords : List WordTimestamp :=
  [⟨("hello"), 0, 1⟩, ⟨("world"), 12, 13⟩]

theorem activeIndex_correct_witness :
    activeTopicIndex demoTopics 10 = some 0 ∧
    getCurrentWordIndex demoWords 10 = 0 := by
  have h := activeIndex_correct demoTopics demoWords 10 (by decide) (by decide)
  refine ⟨(h.1 0).mpr ⟨0, rfl, by norm_num, Or.inr ⟨32, rfl, by norm_num⟩⟩, ?_⟩
  exact (h.2.2.2.1 0).mpr ⟨0, rfl, by norm_num, Or.inr ⟨12, rfl, by norm_num⟩⟩

/-- C2: `skip(delta)` sets `currentTime` to
`clamp(currentTime + delta, 0, duration)` — never below 0, never above the
duration, and 0 whenever the duration is 0 — and changes no other state
field; in particular the playing/paused state is preserved. -/
theorem skip_spec (s : PlayerState) (delta : ℚ) (hd : 0 ≤ s.duration) :
    (skip s delta).currentTime = max 0 (min s.duration (s.currentTime + delta)) ∧
    0 ≤ (skip s delta).currentTime ∧
    (skip s delta).currentTime ≤ s.duration ∧
    (s.duration = 0 → (skip s delta).currentTime = 0) ∧
    (skip s delta).isPlaying = s.isPlaying ∧
    (skip s delta).duration = s.duration ∧
    (skip s delta).playbackRate = s.playbackRate ∧
    (skip s delta).volume = s.volume ∧
    (skip s delta).isMuted = s.isMuted ∧
    (skip s delta).isLoading = s.isLoading ∧
    (skip s delta).error = s.error ∧
    (skip s delta).isDragging = s.isDragging ∧
    (skip s delta).previousVolume = s.previousVolume := by
  refine ⟨rfl, le_max_left 0 _, ?_, ?_, rfl, rfl, rfl, rfl, rfl, rfl, rfl, rfl, rfl⟩
  · exact max_le hd (min_le_left _ _)
  · intro h0
    show max 0 (min s.duration (s.currentTime + delta)) = 0
    rw [h0]
    exact max_eq_left (min_le_left 0 _)

theorem skip_spec_witness :
    (0 : ℚ) ≤ (5 : ℚ) ∧
    (skip { initialState with currentTime := 5, duration := 10 } (-10)).currentTime = 0 ∧
    (skip { initialState with currentTime := 5, duration := 10 } 100).currentTime = 10 := by
  have h1 := skip_spec { initialState with currentTime := 5, duration := 10 } (-10)
    (by norm_num)
  have h2 := skip_spec { initialState with currentTime := 5, duration := 10 } 100
    (by norm_num)
  refine ⟨by norm_num, ?_, ?_⟩
  · rw [h1.1]
    norm_num
  · rw [h2.1]
    norm_num

/-- C3 counterexample: in the legacy `AudioPlayer` component, calling
`togglePlayPause` while not playing sets `isPlaying = true` synchronously,
before (and independent of) any play-promise resolution. -/
theorem togglePlayPause_legacy_optimistic :
    initialState.isPlaying = false ∧
    (togglePlayPauseLegacy initialState).2 = AudioCommand.play ∧
    (togglePlayPauseLegacy initialState).1.isPlaying = true := by
  refine ⟨rfl, ?_, ?_⟩ <;> rfl

/-- C3 (amended to the full-featured player): `togglePlayPause` while
playing issues pause and synchronously clears `isPlaying`; while not
playing it issues play without touching the state, `isPlaying` becomes
true only through the promise-resolution continuation, AbortError and
NotAllowedError rejections leave the error state untouched, any other
rejection records a user-visible error, and every rejection leaves
`isPlaying = false`. -/
theorem togglePlayPause_spec (s : PlayerState) :
    (s.isPlaying = true →
      togglePlayPause s = ({ s with isPlaying := false }, AudioCommand.pause)) ∧
    (s.isPlaying = false →
      togglePlayPause s = (s, AudioCommand.play)) ∧
    (onPlaySettled s PlayResult.resolved).isPlaying = true ∧
    (onPlaySettled s PlayResult.resolved).error = none ∧
    (∀ errName errMessage,
      (onPlaySettled s (PlayResult.rejected errName errMessage)).isPlaying = false) ∧
    (∀ errMessage,
      (onPlaySettled s (PlayResult.rejected ("AbortError") errMessage)).error
        = s.error) ∧
    (∀ errMessage,
      (onPlaySettled s (PlayResult.rejected ("NotAllowedError") errMessage)).error
        = s.error) ∧
    (∀ errName errMessage, errName ≠ ("AbortError") →
      errName ≠ ("NotAllowedError") →
      (onPlaySettled s (PlayResult.rejected errName errMessage)).error
        = some (("Playback failed. ") ++ errMessage)) := by
  refine ⟨?_, ?_, rfl, rfl, ?_, ?_, ?_, ?_⟩
  · intro h
    simp [togglePlayPause, h]
  · intro h
    simp [togglePlayPause, h]
  · intro errName errMessage
    simp [onPlaySettled]
  · intro errMessage
    simp [onPlaySettled]
  · intro errMessage
    simp [onPlaySettled]
  · intro errName errMessage h1 h2
    simp [onPlaySettled, h1, h2]

theorem togglePlayPause_spec_witness :
    ({ initialState with isPlaying := true } : PlayerState).isPlaying = true ∧
    togglePlayPause { initialState with isPlaying := true }
      = ({ initialState with isPlaying := false }, AudioCommand.pause) ∧
    (onPlaySettled initialState
      (PlayResult.rejected ("NotSupportedError") ("boom"))).error
      = some (("Playback failed. ") ++ ("boom")) := by
  have h := togglePlayPause_spec { initialState with isPlaying := true }
  have h2 := togglePlayPause_spec initialState
  refine ⟨rfl, h.1 rfl, ?_⟩
  exact h2.2.2.2.2.2.2.2 ("NotSupportedError") ("boom") (by decide) (by decide)

/-- C4: from an unmuted state with positive volume, muting records the
volume into `previousVolume` and zeroes the effective volume, and muting
then unmuting restores exactly the pre-mute volume. -/
theorem toggleMute_roundtrip (s : PlayerState) (hv : 0 < s.volume)
    (hm : s.isMuted = false) :
    (toggleMute s).previousVolume = s.volume ∧
    (toggleMute s).volume = 0 ∧
    (toggleMute s).isMuted = true ∧
    (toggleMute (toggleMute s)).volume = s.volume ∧
    (toggleMute (toggleMute s)).isMuted = false ∧
    (toggleMute (toggleMute s)).previousVolume = s.volume := by
  refine ⟨?_, ?_, ?_, ?_, ?_, ?_⟩ <;> simp [toggleMute, hm]

theorem toggleMute_roundtrip_witness :
    (0 : ℚ) < (4/5 : ℚ) ∧
    (toggleMute (toggleMute { initialState with volume := 4/5 })).volume = 4/5 := by
  have h := toggleMute_roundtrip { initialState with volume := 4/5 }
    (by norm_num) rfl
  exact ⟨by norm_num, h.2.2.2.1⟩

/-- C5 counterexample: `handleVolumeChange` performs no clamping — with
input level 2 the stored volume is 2, strictly above 1, refuting "stores a
volume clamped to [0,1]". -/
theorem handleVolumeChange_no_clamp :
    (handleVolumeChange initialState 2).volume = 2 ∧
    ¬((handleVolumeChange initialState 2).volume ≤ 1) := by
  constructor
  · rfl
  · intro h
    have : (handleVolumeChange initialState 2).volume = 2 := rfl
    rw [this] at h
    norm_num at h

/-- C5 (amended): `handleVolumeChange(level)` stores `level` as the volume
without clamping; a zero level mutes and leaves `previousVolume`
untouched; a positive level unmutes and records itself into
`previousVolume`.  The mute/unmute scenario of the spec holds: from volume
0.8 (set through the slider), `handleVolumeChange(0)` yields muted with
`previousVolume = 0.8`, and a subsequent `toggleMute` yields unmuted with
volume 0.8. -/
theorem handleVolumeChange_spec (s : PlayerState) (level : ℚ) :
    ((handleVolumeChange s level).volume = level) ∧
    (level = 0 →
      (handleVolumeChange s level).isMuted = true ∧
      (handleVolumeChange s level).previousVolume = s.previousVolume) ∧
    (0 < level →
      (handleVolumeChange s level).isMuted = false ∧
      (handleVolumeChange s level).previousVolume = level) ∧
    ((handleVolumeChange (handleVolumeChange s (4/5)) 0).isMuted = true ∧
      (handleVolumeChange (handleVolumeChange s (4/5)) 0).previousVolume = 4/5 ∧
      (toggleMute (handleVolumeChange (handleVolumeChange s (4/5)) 0)).isMuted
        = false ∧
      (toggleMute (handleVolumeChange (handleVolumeChange s (4/5)) 0)).volume
        = 4/5) := by
  refine ⟨?_, ?_, ?_, ?_⟩
  · by_cases h : level = 0 <;> simp [handleVolumeChange, h]
  · intro h
    simp [handleVolumeChange, h]
  · intro h
    have h0 : level ≠ 0 := ne_of_gt h
    simp [handleVolumeChange, h0]
  · have h45 : (4/5 : ℚ) ≠ 0 := by norm_num
    simp [handleVolumeChange, h45, toggleMute]

theorem handleVolumeChange_spec_witness :
    (0 : ℚ) = 0 ∧
    (handleVolumeChange initialState 0).isMuted = true ∧
    (toggleMute (handleVolumeChange (handleVolumeChange initialState (4/5)) 0)).volume
      = 4/5 := by
  have h := handleVolumeChange_spec initialState 0
  exact ⟨rfl, (h.2.1 rfl).1, h.2.2.2.2.2.2⟩

/-- C6: while a drag is in progress, an adapter time-advance event leaves
the state (in particular `currentTime`) unchanged; after the drag-end
handler clears `isDragging`, the next time-advance event drives
`currentTime` again. -/
theorem drag_suppression (s : PlayerState) (a1 a2 : ℚ)
    (hd : s.isDragging = true) :
    handleTimeUpdate s a1 = s ∧
    (handleTimeUpdate (handleMouseUp s) a2).currentTime = a2 ∧
    (handleMouseUp s).isDragging = false := by
  refine ⟨?_, ?_, rfl⟩
  · simp [handleTimeUpdate, hd]
  · simp [handleTimeUpdate, handleMouseUp]

theorem drag_suppression_witness :
    ({ initialState with isDragging := true } : PlayerState).isDragging = true ∧
    handleTimeUpdate { initialState with isDragging := true } 7
      = { initialState with isDragging := true } ∧
    (handleTimeUpdate (handleMouseUp { initialState with isDragging := true }) 9).currentTime
      = 9 := by
  have h := drag_suppression { initialState with isDragging := true } 7 9 rfl
  exact ⟨rfl, h.1, h.2.1⟩

theorem toNatEval : Int.toNat 0 = 0 ∧ Int.toNat 1 = 1 ∧ Int.toNat 2 = 2 ∧
    Int.toNat 3 = 3 ∧ Int.toNat 4 = 4 ∧ Int.toNat 5 = 5 ∧ Int.toNat 6 = 6 :=
  ⟨rfl, rfl, rfl, rfl, rfl, rfl, rfl⟩

theorem rateStep1 : nextRate 1 = 1.25 := by
  norm_num [nextRate, nextRateIndex, currentRateIndex, PLAYBACK_RATES,
    List.indexOf?, toNatEval.2.1]

theorem rateStep2 : nextRate 1.25 = 1.5 := by
  norm_num [nextRate, nextRateIndex, currentRateIndex, PLAYBACK_RATES,
    List.indexOf?, toNatEval.2.2.1]

theorem rateStep3 : nextRate 1.5 = 1.75 := by
  norm_num [nextRate, nextRateIndex, currentRateIndex, PLAYBACK_RATES,
    List.indexOf?, toNatEval.2.2.2.1]

theorem rateStep4 : nextRate 1.75 = 2 := by
  norm_num [nextRate, nextRateIndex, currentRateIndex, PLAYBACK_RATES,
    List.indexOf?, toNatEval.2.2.2.2.1]

theorem rateStep5 : nextRate 2 = 2.5 := by
  norm_num [nextRate, nextRateIndex, currentRateIndex, PLAYBACK_RATES,
    List.indexOf?, toNatEval.2.2.2.2.2.1]

theorem rateStep6 : nextRate 2.5 = 3 := by
  norm_num [nextRate, nextRateIndex, currentRateIndex, PLAYBACK_RATES,
    List.indexOf?, toNatEval.2.2.2.2.2.2]

theorem rateStep7 : nextRate 3 = 1 := by
  norm_num [nextRate, nextRateIndex, currentRateIndex, PLAYBACK_RATES,
    List.indexOf?, toNatEval.1]

theorem iterate_playbackRate (n : ℕ) (s : PlayerState) :
    (handlePlaybackRateChange^[n] s).playbackRate
      = nextRate^[n] s.playbackRate := by
  induction n generalizing s with
  | zero => rfl
  | succ k ih =>
    rw [Function.iterate_succ_apply, Function.iterate_succ_apply, ih]
    rfl

/-- C7: cycling the playback rate steps through the fixed ascending list
`[1, 1.25, 1.5, 1.75, 2, 2.5, 3]` with wrap-around: seven steps return
any listed rate to itself, and one step from rate 3 yields rate 1. -/
theorem rate_cycle (s : PlayerState) (h : s.playbackRate ∈ PLAYBACK_RATES) :
    (handlePlaybackRateChange^[PLAYBACK_RATES.length] s).playbackRate
      = s.playbackRate ∧
    (s.playbackRate = 3 → (handlePlaybackRateChange s).playbackRate = 1) := by
  constructor
  · have hlen : PLAYBACK_RATES.length = 7 := rfl
    rw [hlen, iterate_playbackRate 7 s]
    simp only [Function.iterate_succ_apply, Function.iterate_zero_apply]
    simp only [PLAYBACK_RATES, List.mem_cons, List.not_mem_nil, or_false] at h
    rcases h with h | h | h | h | h | h | h <;> rw [h] <;>
      simp only [rateStep1, rateStep2, rateStep3, rateStep4, rateStep5,
        rateStep6, rateStep7]
  · intro h3
    show nextRate s.playbackRate = 1
    rw [h3, rateStep7]

theorem rate_cycle_witness :
    ({ initialState with playbackRate := 3 } : PlayerState).playbackRate
      ∈ PLAYBACK_RATES ∧
    (handlePlaybackRateChange { initialState with playbackRate := 3 }).playbackRate
      = 1 := by
  have hm : ({ initialState with playbackRate := 3 } : PlayerState).playbackRate
      ∈ PLAYBACK_RATES := by
    show (3 : ℚ) ∈ PLAYBACK_RATES
    simp [PLAYBACK_RATES]
  exact ⟨hm, (rate_cycle { initialState with playbackRate := 3 } hm).2 rfl⟩

/-- C10: the rate-cycle operation is total: when the current rate is not
in the fixed list, `indexOf` yields `-1`, `(−1 + 1) % 7 = 0` selects the
first rate 1, and the selected index is always within bounds. -/
theorem rate_cycle_total (s : PlayerState)
    (h : s.playbackRate ∉ PLAYBACK_RATES) :
    currentRateIndex s.playbackRate = -1 ∧
    (handlePlaybackRateChange s).playbackRate = 1 ∧
    (∀ r : ℚ, nextRateIndex r < PLAYBACK_RATES.length) := by
  have hnone : PLAYBACK_RATES.indexOf? s.playbackRate = none := by
    apply List.indexOf?_eq_none_iff.mpr
    intro x hx
    simp only [beq_iff_eq]
    intro he
    exact h (he ▸ hx)
  have hci : currentRateIndex s.playbackRate = -1 := by
    simp [currentRateIndex, hnone]
  refine ⟨hci, ?_, ?_⟩
  · show nextRate s.playbackRate = 1
    simp [nextRate, nextRateIndex, hci]
    rfl
  · intro r
    show ((currentRateIndex r + 1) % (PLAYBACK_RATES.length : ℤ)).toNat
      < PLAYBACK_RATES.length
    have hlen : ((PLAYBACK_RATES.length : ℕ) : ℤ) = 7 := rfl
    rw [hlen]
    have hnn : 0 ≤ (currentRateIndex r + 1) % 7 :=
      Int.emod_nonneg _ (by norm_num)
    have hlt : (currentRateIndex r + 1) % 7 < 7 :=
      Int.emod_lt_of_pos _ (by norm_num)
    have := (Int.toNat_lt hnn).mpr (by exact_mod_cast hlt)
    simpa [PLAYBACK_RATES] using this

theorem rate_cycle_total_witness :
    ((1 : ℚ) / 2) ∉ PLAYBACK_RATES ∧
    (handlePlaybackRateChange { initialState with playbackRate := 1/2 }).playbackRate
      = 1 := by
  have hm : ({ initialState with playbackRate := 1/2 } : PlayerState).playbackRate
      ∉ PLAYBACK_RATES := by
    show (1/2 : ℚ) ∉ PLAYBACK_RATES
    norm_num [PLAYBACK_RATES]
  exact ⟨hm, (rate_cycle_total { initialState with playbackRate := 1/2 } hm).2.1⟩

/-- State of the `throttle` closure: `lastExecTime` and the pending
`setTimeout` (its scheduled fire time and the argument captured for it),
`none` when no timeout is scheduled. -/
structure ThrottleState where
  lastExecTime : ℤ
  pending : Option (ℤ × ℚ)
  deriving DecidableEq, Repr

/-- Single-threaded event loop: before an event at time `now` runs, a
pending timeout whose scheduled time is `≤ now` fires first, delivering
its captured value and setting `lastExecTime = Date.now()`. -/
def fireDueTimer (st : ThrottleState) (now : ℤ) :
    ThrottleState × List (ℤ × ℚ) :=
  match st.pending with
  | some (ft, v) =>
      if ft ≤ now then ({ lastExecTime := ft, pending := none }, [(ft, v)])
      else (st, [])
  | none => (st, [])

/-- One invocation of the throttled function at time `now` with value `v`
(the body of the closure returned by `throttle(func, delay)`):
if `now - lastExecTime > delay`, call `func` immediately and set
`lastExecTime = now` — leaving any pending timeout scheduled; otherwise
clear the pending timeout and schedule a new one at `now + delay`
capturing `v`. -/
def throttleCall (delay : ℤ) (st : ThrottleState) (now : ℤ) (v : ℚ) :
    ThrottleState × List (ℤ × ℚ) :=
  if now - st.lastExecTime > delay then
    ({ st with lastExecTime := now }, [(now, v)])
  else
    ({ st with pending := some (now + delay, v) }, [])

/-- Run a finite burst of calls `(time, value)` (times nondecreasing)
through the throttle, firing due timeouts between calls, and let the loop
go quiescent at the end (a still-pending timeout fires). Returns the
ordered list of delivered `(time, value)` updates and the final state. -/
def throttleRun (delay : ℤ) : ThrottleState → List (ℤ × ℚ) →
    List (ℤ × ℚ) × ThrottleState
  | st, [] =>
      match st.pending with
      | some (ft, v) => ([(ft, v)], { lastExecTime := ft, pending := none })
      | none => ([], st)
  | st, (now, v) :: rest =>
      let fired := fireDueTimer st now
      let called := throttleCall delay fired.1 now v
      let tail := throttleRun delay called.1 rest
      (fired.2 ++ called.2 ++ tail.1, tail.2)

/-- The burst that exhibits the throttle bug: ticks carrying values 1, 2, 3
at times 1000 ms, 1100 ms and 1150 ms, followed by quiescence
(`lastExecTime` starts at 0 as in the closure). -/
def burstTrace : List (ℤ × ℚ) := [(1000, 1), (1100, 2), (1150, 3)]

/-- C8: the `throttle` utility (used with `delay = 100` for
`throttledTimeUpdate`) violates the claimed coalescing contract.  On
`burstTrace`, the call at 1100 schedules a timeout for 1200 capturing the
value 2; the call at 1150 takes the immediate branch without cancelling
that timeout, delivering 3; the timeout then fires at 1200 and delivers
the stale value 2 — two observable updates 50 ms apart, with the later
one carrying an older value than the most recent one received. -/
theorem throttle_stale_delivery :
    (throttleRun 100 ⟨0, none⟩ burstTrace).1
      = [(1000, 1), (1150, 3), (1200, 2)] ∧
    ((1200 : ℤ) - 1150 < 100 ∧
      (throttleRun 100 ⟨0, none⟩ burstTrace).1.get? 1 = some (1150, 3) ∧
      (throttleRun 100 ⟨0, none⟩ burstTrace).1.get? 2 = some (1200, 2)) := by
  refine ⟨rfl, by norm_num, rfl, rfl⟩

/-- A parsed topic from the summary text:
`interface ParsedTopic { name: string; timestamp: number }`. -/
structure ParsedTopic where
  name : String
  timestamp : ℕ
  deriving DecidableEq, Repr

/-- Greedy run of decimal digits (the regex atom `\d+`), accumulating the
decimal value as `parseInt` does; returns the value and the rest. -/
def digitsAux : List Char → ℕ → ℕ × List Char
  | [], acc => (acc, [])
  | c :: rest, acc =>
      if c.isDigit then digitsAux rest (acc * 10 + (c.toNat - 48))
      else (acc, c :: rest)

/-- Pattern `\d+` (at least one digit) followed by the rest of the input. -/
def parseDigits : List Char → Option (ℕ × List Char)
  | c :: rest =>
      if c.isDigit then some (digitsAux rest (c.toNat - 48)) else none
  | [] => none

/-- The suffix pattern ` \[(\d+):(\d+)\]` of the topic-line regex: a
space, `[`, minutes, `:`, seconds, `]` (anything after `]` is ignored). -/
def matchBracket : List Char → Option (ℕ × ℕ)
  | ' ' :: '[' :: rest =>
      (match parseDigits rest with
       | some (mm, ':' :: rest2) =>
           (match parseDigits rest2 with
            | some (ss, ']' :: _) => some (mm, ss)
            | _ => none)
       | _ => none)
  | _ => none

/-- Lazy capture `(.+?)` before the bracket: extend the name one character
at a time (shortest first, at least one character) until the remainder
matches the bracket pattern.  `acc` holds the name read so far, reversed. -/
def findName : List Char → List Char → Option (String × ℕ × ℕ)
  | _, [] => none
  | acc, c :: rest =>
      match matchBracket rest with
      | some (mm, ss) => some (String.mk (c :: acc).reverse, mm, ss)
      | none => findName (c :: acc) rest

/-- Leftmost match of the topic-line regex `- (.+?) \[(\d+):(\d+)\]`:
scan start positions left to right; at each `- `, try the lazy name. -/
def scanTopic : List Char → Option (String × ℕ × ℕ)
  | [] => none
  | c :: rest =>
      if c = '-' then
        match rest with
        | ' ' :: rest2 =>
            (match findName [] rest2 with
             | some r => some r
             | none => scanTopic rest)
        | _ => scanTopic rest
      else scanTopic rest

/-- Result of `line.match` against the topic-line regex `- (.+?) \[(\d+):(\d+)\]`,
returned as (name, minutes, seconds).  Lines are handled as character
lists (the executable form of the host's strings). -/
def topicLineMatch (line : List Char) : Option (String × ℕ × ℕ) :=
  scanTopic line

/-- Whitespace trim on both ends (JS `String.prototype.trim`). -/
def trimChars (cs : List Char) : List Char :=
  ((cs.dropWhile Char.isWhitespace).reverse.dropWhile Char.isWhitespace).reverse

/-- The suffix after the first occurrence of `pat` (`none` if absent):
the text to the right of the split separator. -/
def afterFirst (pat : List Char) : List Char → Option (List Char)
  | [] => none
  | c :: rest =>
      if pat.isPrefixOf (c :: rest) then some ((c :: rest).drop pat.length)
      else afterFirst pat rest

/-- The characters before the first occurrence of `pat` (all of them if
`pat` never occurs): the lazy capture stopped by the lookahead. -/
def upToFirst (pat : List Char) : List Char → List Char
  | [] => []
  | c :: rest =>
      if pat.isPrefixOf (c :: rest) then []
      else c :: upToFirst pat rest

/-- Result of `summary.match(/\*\*Topics:\*\*(.*?)(?=\*\*|$)/s)`, trimmed: the
text after the first `**Topics:**` label up to the next `**` (or the
end), then `.trim()`. -/
def extractTopicsSection (summary : String) : List Char :=
  match afterFirst ("**Topics:**").data summary.data with
  | some rest => trimChars (upToFirst ("**").data rest)
  | none => []

/-- Split on newline characters (JS `split('\n')`). -/
def splitLines : List Char → List (List Char)
  | [] => [[]]
  | c :: rest =>
      let r := splitLines rest
      if c = '\n' then [] :: r
      else
        match r with
        | h :: t => (c :: h) :: t
        | [] => [[c]]

/-- Source `sections.topics.split('\n').filter(line => line.trim().startsWith('-'))`. -/
def topicLines (topicsSection : List Char) : List (List Char) :=
  (splitLines topicsSection).filter
    (fun line =>
      match trimChars line with
      | c :: _ => c = '-'
      | [] => false)

/-- The per-line step of the `topicLines.forEach` loop: on a regex match,
`timestamp = parseInt(minutes) * 60 + parseInt(seconds)`, and the topic is
pushed only when `audioDuration === 0 || timestamp < audioDuration`. -/
def topicOfLine (audioDuration : ℚ) (line : List Char) : Option ParsedTopic :=
  match topicLineMatch line with
  | some (name, minutes, seconds) =>
      let timestamp := minutes * 60 + seconds
      if audioDuration = 0 ∨ (timestamp : ℚ) < audioDuration then
        some ⟨name, timestamp⟩
      else none
  | none => none

/-- Source `parsedTopics`: the ordered topics pushed by the forEach loop over the
filtered lines of the Topics section. -/
def parsedTopics (summary : String) (audioDuration : ℚ) : List ParsedTopic :=
  (topicLines (extractTopicsSection summary)).filterMap
    (topicOfLine audioDuration)

theorem topicOfLine_eq_some (d : ℚ) (line : List Char) (tp : ParsedTopic) :
    topicOfLine d line = some tp ↔
      ∃ mm ss, topicLineMatch line = some (tp.name, mm, ss) ∧
        tp.timestamp = mm * 60 + ss ∧
        (d = 0 ∨ ((mm * 60 + ss : ℕ) : ℚ) < d) := by
  unfold topicOfLine
  rcases h : topicLineMatch line with _ | ⟨n, mm, ss⟩
  · simp
  · simp only [h]
    by_cases hc : d = 0 ∨ ((mm * 60 + ss : ℕ) : ℚ) < d
    · simp only [if_pos hc, Option.some_inj]
      constructor
      · rintro rfl
        exact ⟨mm, ss, rfl, rfl, hc⟩
      · rintro ⟨mm2, ss2, hmatch, hts, -⟩
        obtain ⟨hn, hm, hs⟩ : n = tp.name ∧ mm = mm2 ∧ ss = ss2 := by
          simpa using hmatch
        cases tp
        simp_all
    · simp only [if_neg hc]
      constructor
      · intro h2
        simp at h2
      · rintro ⟨mm2, ss2, hmatch, hts, hcond⟩
        obtain ⟨hn, hm, hs⟩ : n = tp.name ∧ mm = mm2 ∧ ss = ss2 := by
          simpa using hmatch
        subst hm
        subst hs
        exact absurd hcond hc

theorem filterMap_sublist_mono {α β : Type _} (f g : α → Option β)
    (l : List α) (h : ∀ a b, f a = some b → g a = some b) :
    (l.filterMap f).Sublist (l.filterMap g) := by
  induction l with
  | nil => simp
  | cons x xs ih =>
    rcases hfx : f x with _ | b
    · rw [List.filterMap_cons_none hfx]
      rcases hgx : g x with _ | c
      · rw [List.filterMap_cons_none hgx]
        exact ih
      · rw [List.filterMap_cons_some hgx]
        exact ih.cons c
    · have hgx := h x b hfx
      rw [List.filterMap_cons_some hfx, List.filterMap_cons_some hgx]
      exact ih.cons₂ b

/-- C9: each line of the Topics section matching the `- Name [MM:SS]`
convention yields a topic with timestamp `60*MM + SS`, in line order
(`parsedTopics` under a duration filter is a sublist of the unfiltered
parse); a parsed topic is kept iff the duration is unknown (`d = 0`) or
its timestamp is strictly below `d`; with a nonzero duration `d`, a topic
whose timestamp is `≥ d` is dropped even when its timestamp is below the
(asynchronously arriving) true duration. -/
theorem parsedTopics_spec (summary : String) (d : ℚ) :
    (∀ line ∈ topicLines (extractTopicsSection summary), ∀ n mm ss,
      topicLineMatch line = some (n, mm, ss) →
      (d = 0 ∨ ((mm * 60 + ss : ℕ) : ℚ) < d) →
      (⟨n, mm * 60 + ss⟩ : ParsedTopic) ∈ parsedTopics summary d) ∧
    (∀ tp ∈ parsedTopics summary d,
      ∃ line ∈ topicLines (extractTopicsSection summary), ∃ mm ss,
        topicLineMatch line = some (tp.name, mm, ss) ∧
        tp.timestamp = mm * 60 + ss) ∧
    (∀ tp ∈ parsedTopics summary d, d = 0 ∨ (tp.timestamp : ℚ) < d) ∧
    ((parsedTopics summary d).Sublist (parsedTopics summary 0)) ∧
    (d ≠ 0 → ∀ tp : ParsedTopic, d ≤ (tp.timestamp : ℚ) →
      ∀ dTrue : ℚ, (tp.timestamp : ℚ) < dTrue →
      tp ∉ parsedTopics summary d) := by
  have hvalid : ∀ tp ∈ parsedTopics summary d, d = 0 ∨ (tp.timestamp : ℚ) < d := by
    intro tp htp
    obtain ⟨line, -, hline⟩ := List.mem_filterMap.mp htp
    obtain ⟨mm, ss, -, hts, hcond⟩ := (topicOfLine_eq_some d line tp).mp hline
    rcases hcond with h0 | hlt
    · exact Or.inl h0
    · refine Or.inr ?_
      rw [hts]
      exact_mod_cast hlt
  refine ⟨?_, ?_, hvalid, ?_, ?_⟩
  · intro line hline n mm ss hmatch hcond
    apply List.mem_filterMap.mpr
    exact ⟨line, hline,
      (topicOfLine_eq_some d line ⟨n, mm * 60 + ss⟩).mpr
        ⟨mm, ss, hmatch, rfl, hcond⟩⟩
  · intro tp htp
    obtain ⟨line, hmem, hline⟩ := List.mem_filterMap.mp htp
    obtain ⟨mm, ss, hmatch, hts, -⟩ := (topicOfLine_eq_some d line tp).mp hline
    exact ⟨line, hmem, mm, ss, hmatch, hts⟩
  · apply filterMap_sublist_mono
    intro line tp hline
    obtain ⟨mm, ss, hmatch, hts, -⟩ := (topicOfLine_eq_some d line tp).mp hline
    exact (topicOfLine_eq_some 0 line tp).mpr ⟨mm, ss, hmatch, hts, Or.inl rfl⟩
  · intro hd tp hge dTrue hdTrue htp
    rcases hvalid tp htp with h0 | hlt
    · exact hd h0
    · exact absurd (lt_of_le_of_lt hge hlt) (lt_irrefl d)

end AudioSync

namespace AudioSync

/-- A structured summary following the external textual convention. -/
def demoSummary : String :=
  "**Topics:**\n- Intro [0:10]\n- Budget [1:02]\n\n**Summary:**\nBlah"

theorem parsedTopics_spec_witness :
    (⟨("Intro"), 10⟩ : ParsedTopic) ∈ parsedTopics demoSummary 30 ∧
    (⟨("Budget"), 62⟩ : ParsedTopic) ∉ parsedTopics demoSummary 30 := by
  have h := parsedTopics_spec demoSummary 30
  constructor
  · have hm := h.1 ("- Intro [0:10]").data (by decide) ("Intro") 0 10 (by decide)
      (Or.inr (by norm_num))
    simpa using hm
  · intro hmem
    rcases h.2.2.1 (⟨("Budget"), 62⟩ : ParsedTopic) hmem with h0 | hlt
    · norm_num at h0
    · norm_num [ParsedTopic.timestamp] at hlt

end AudioSync
